import Mathlib

/-!
# PenguinCode orchestrator core: a shallow embedding with proofs

This file embeds the concurrency semaphore, worker-spawn protocol,
supervision loop, plan parser/executor, worker tool-use loop, capability
gating, tool-callback correlation and context compaction of the
PenguinCode repository (packages `penguincode_cli` and `penguincode`) and
proves, or refutes on concrete inputs, the specification claims about them.

Conventions:
* Python `str` is Lean `String` (ASCII assumed for `lower`/`strip`).
* Python integers are `Nat`/`Int`; `//` is Nat division.
* Async control flow is embedded as explicit step relations (interleaving
  micro-steps at `await` boundaries) or as oracle-driven pure recursion.
* Fallible code returns `Except`/`Option`.
-/

namespace PenguinCode

/-! ## Agent concurrency semaphore

From `src/penguincode_cli/agents/chat.py`, class `AgentSemaphore`:

* `__init__(max_concurrent)`: `_max := max_concurrent`,
  `_semaphore := asyncio.Semaphore(max_concurrent)`, `_active_count := 0`.
* `acquire()`: `await _semaphore.acquire()` then, under `_lock`,
  `_active_count += 1`.
* `release()`: `_semaphore.release()` then
  `asyncio.create_task(self._decrement_count())` — the decrement of
  `_active_count` is *deferred* to a separately scheduled task.
* `adjust_max(new_max)`: `_max := max(1, new_max)` and nothing else — the
  underlying `asyncio.Semaphore` is not resized.

The state below tracks the observable fields plus the scheduled-but-not-run
decrement tasks and (ghost) the number of currently held slots.  One step =
one atomic region between `await` suspension points of the event loop.
-/

/-- State of one `AgentSemaphore` instance together with its event-loop
bookkeeping.  `semAvail` is the free-slot count of the underlying
`asyncio.Semaphore`; `pendingDecs` counts `_decrement_count` tasks that have
been created by `release()` but not yet run; `holders` counts callers that
completed `acquire()` and have not yet called `release()`. -/
structure SemState where
  maxVal : Nat
  semAvail : Nat
  active : Int
  pendingDecs : Nat
  holders : Nat
deriving Repr, DecidableEq

/-- `AgentSemaphore(max_concurrent)`: fresh instance. -/
def AgentSemaphore.init (maxConcurrent : Nat) : SemState :=
  { maxVal := maxConcurrent
    semAvail := maxConcurrent
    active := 0
    pendingDecs := 0
    holders := 0 }

/-- One scheduler step over an `AgentSemaphore`:
`acquire` (underlying slot taken and `_active_count` incremented),
`release` (slot freed and a `_decrement_count` task created — both happen in
the synchronous body of `release()`), `runDec` (a scheduled
`_decrement_count` task runs), `adjustMax` (a call to `adjust_max`). -/
inductive SemStep : SemState → SemState → Prop
  | acquire {s : SemState} (h : 0 < s.semAvail) :
      SemStep s { s with
        semAvail := s.semAvail - 1
        active := s.active + 1
        holders := s.holders + 1 }
  | release {s : SemState} (h : 0 < s.holders) :
      SemStep s { s with
        semAvail := s.semAvail + 1
        pendingDecs := s.pendingDecs + 1
        holders := s.holders - 1 }
  | runDec {s : SemState} (h : 0 < s.pendingDecs) :
      SemStep s { s with
        pendingDecs := s.pendingDecs - 1
        active := s.active - 1 }
  | adjustMax {s : SemState} (n : Nat) :
      SemStep s { s with maxVal := max 1 n }

/-- States reachable from a freshly constructed `AgentSemaphore(cap)` under
any interleaving of acquire/release/decrement/adjust steps in which every
`release` is performed by a current holder (the protocol `_spawn_agent`
follows, see `spawnAgent` below). -/
def SemReachable (cap : Nat) (s : SemState) : Prop :=
  Relation.ReflTransGen SemStep (AgentSemaphore.init cap) s

/-- The inductive invariant of the semaphore semantics: `_active_count`
equals holders plus pending decrements, and underlying free slots plus
holders equal the *initial* capacity (the underlying semaphore is never
resized). -/
def SemInv (cap : Nat) (s : SemState) : Prop :=
  s.active = (s.holders : Int) + (s.pendingDecs : Int) ∧
  s.semAvail + s.holders = cap

lemma semInv_init (cap : Nat) : SemInv cap (AgentSemaphore.init cap) := by
  constructor <;> simp [AgentSemaphore.init, SemInv]

lemma semInv_step {cap : Nat} {s t : SemState} (hs : SemInv cap s)
    (hstep : SemStep s t) : SemInv cap t := by
  obtain ⟨h1, h2⟩ := hs
  cases hstep with
  | acquire h =>
      refine ⟨?_, ?_⟩
      · show s.active + 1 = ((s.holders + 1 : Nat) : Int) + (s.pendingDecs : Int)
        omega
      · show s.semAvail - 1 + (s.holders + 1) = cap
        omega
  | release h =>
      refine ⟨?_, ?_⟩
      · show s.active = ((s.holders - 1 : Nat) : Int) + ((s.pendingDecs + 1 : Nat) : Int)
        omega
      · show s.semAvail + 1 + (s.holders - 1) = cap
        omega
  | runDec h =>
      refine ⟨?_, h2⟩
      show s.active - 1 = (s.holders : Int) + ((s.pendingDecs - 1 : Nat) : Int)
      omega
  | adjustMax n =>
      exact ⟨h1, h2⟩

lemma semInv_reachable {cap : Nat} {s : SemState} (h : SemReachable cap s) :
    SemInv cap s := by
  induction h with
  | refl => exact semInv_init cap
  | tail _ hstep ih => exact semInv_step ih hstep

/-! ## `_spawn_agent` (ChatAgent, `src/penguincode_cli/agents/chat.py`)

```
try:
    await self.agent_semaphore.acquire()
    try:
        result = await asyncio.wait_for(agent.run(task), timeout=self.agent_timeout)
        if result.needs_escalation:
            return False, f"ESCALATION_NEEDED:{result.escalation_context}"
        success = result.success
        output = result.output if result.success else (result.error or "Unknown error")
        return success, output
    finally:
        self.agent_semaphore.release()
except asyncio.TimeoutError:
    return False, f"Agent timed out after {self.agent_timeout} seconds"
except Exception as e:
    return False, f"Agent failed: {str(e)}"
```

Unknown agent types return `(False, f"Unknown agent type: {agent_type}")`
before the semaphore is touched.  Model-tier selection (`estimate_complexity`,
lite/full models) does not touch the semaphore and is not modelled.
-/

/-- A semaphore operation performed by `_spawn_agent`. -/
inductive SemOp where
  | acq
  | rel
deriving Repr, DecidableEq

/-- Exceptions observable in the inner `try` of `_spawn_agent`. -/
inductive SpawnExc where
  | timeout
  | other (msg : String)
deriving Repr, DecidableEq

/-- Outcome of `await asyncio.wait_for(agent.run(task), ...)`:
the worker's `AgentResult` (fields used by `_spawn_agent`: `needs_escalation`,
`escalation_context`, `success`, `output`, `error`), a timeout of the run, or
any other exception. -/
inductive RunOutcome where
  | finished (needsEscalation : Bool) (escalationContext : String)
      (success : Bool) (output : String) (error : Option String)
  | timedOut
  | raised (msg : String)
deriving Repr, DecidableEq

def validAgentTypes : List String := ["explorer", "executor", "planner", "researcher"]

/-- The inner `try` body of `_spawn_agent` (between acquire and the
`finally`), as a fallible computation:
escalation results are rewrapped with the `ESCALATION_NEEDED:` prefix and a
failed result's output is `result.error or "Unknown error"`. -/
def spawnAgentInner (o : RunOutcome) : Except SpawnExc (Bool × String) :=
  match o with
  | .timedOut => .error .timeout
  | .raised m => .error (.other m)
  | .finished ne ctx succ out err =>
      if ne then .ok (false, "ESCALATION_NEEDED:" ++ ctx)
      else
        .ok (succ,
          if succ then out
          else match err with
            | some e => if e = "" then "Unknown error" else e
            | none => "Unknown error")

/-- `_spawn_agent(agent_type, task)` for a given run outcome: the list of
semaphore operations it performs (in order) and the `(success, output)` pair
it returns.  The `finally` clause releases the slot on every exit of the
inner body — normal return, escalation return, timeout, other exception —
after which the outer `except` arms map exceptions to returns. -/
def spawnAgent (agentType : String) (timeoutSecs : Nat) (o : RunOutcome) :
    List SemOp × (Bool × String) :=
  if agentType ∈ validAgentTypes then
    let ops := [SemOp.acq, SemOp.rel]
    match spawnAgentInner o with
    | .ok r => (ops, r)
    | .error .timeout =>
        (ops, (false, "Agent timed out after " ++ toString timeoutSecs ++ " seconds"))
    | .error (.other m) => (ops, (false, "Agent failed: " ++ m))
  else
    ([], (false, "Unknown agent type: " ++ agentType))

/-- **C1.** For every successful semaphore acquire performed by
`ChatAgent._spawn_agent` there is exactly one matching release, on every exit
path of the worker run — normal completion (success or failure), escalation,
timeout of the run, and any other exception: the operation trace is exactly
`[acquire, release]`.  Consequently, in any reachable semaphore state in
which no run is in flight and all deferred `_decrement_count` tasks have
run, the active count is `0`: no slot is leaked. -/
theorem spawnAgent_release_balanced (agentType : String) (t : Nat)
    (o : RunOutcome) (h : agentType ∈ validAgentTypes) :
    (spawnAgent agentType t o).1 = [SemOp.acq, SemOp.rel] ∧
    ∀ cap s, SemReachable cap s → s.holders = 0 → s.pendingDecs = 0 →
      s.active = 0 := by
  constructor
  · unfold spawnAgent
    rw [if_pos h]
    cases o with
    | finished ne ctx succ out err =>
        by_cases hne : ne = true <;> simp [spawnAgentInner, hne]
    | timedOut => rfl
    | raised m => rfl
  · intro cap s hreach hh hp
    have hinv := semInv_reachable hreach
    rw [hinv.1, hh, hp]
    simp

theorem spawnAgent_release_balanced_witness :
    ("executor" ∈ validAgentTypes) ∧
    ((spawnAgent "executor" 300 .timedOut).1 = [SemOp.acq, SemOp.rel] ∧
     ∀ cap s, SemReachable cap s → s.holders = 0 → s.pendingDecs = 0 →
       s.active = 0) :=
  ⟨by decide, spawnAgent_release_balanced "executor" 300 .timedOut (by decide)⟩

/-! ## C2: the claimed invariant `0 ≤ activeCount ≤ capacity`

Because `release()` frees the underlying slot synchronously but defers the
`_active_count` decrement to a scheduled task, a new `acquire` can complete
before the decrement runs: with capacity 1, the trace
acquire → release → acquire observes `_active_count = 2 > 1`.
-/

/-- Intermediate states of the refuting trace for capacity 1. -/
def semCexA : SemState :=
  { maxVal := 1, semAvail := 0, active := 1, pendingDecs := 0, holders := 1 }

def semCexB : SemState :=
  { maxVal := 1, semAvail := 1, active := 1, pendingDecs := 1, holders := 0 }

/-- The observed state refuting C2: `active = 2` with `maxVal = 1`. -/
def semCexBad : SemState :=
  { maxVal := 1, semAvail := 0, active := 2, pendingDecs := 1, holders := 1 }

/-- **C2, counterexample.** With configured capacity 1, the interleaving
acquire; release; acquire (the deferred `_decrement_count` task of the
release has not yet run) reaches a state where `active_agents = 2` exceeds
the capacity: the claimed invariant `activeCount ≤ capacity` fails at an
observation point. -/
theorem semaphore_bound_counterexample :
    SemReachable 1 semCexBad ∧ (semCexBad.maxVal : Int) < semCexBad.active := by
  refine ⟨?_, by decide⟩
  have h1 : SemStep (AgentSemaphore.init 1) semCexA := SemStep.acquire (by decide)
  have h2 : SemStep semCexA semCexB := SemStep.release (by decide)
  have h3 : SemStep semCexB semCexBad := SemStep.acquire (by decide)
  exact Relation.ReflTransGen.tail
    (Relation.ReflTransGen.tail (Relation.ReflTransGen.single h1) h2) h3

/-- **C2 (amended).** In every state reachable under the acquire/release
protocol: the active count is never negative; it equals current holders plus
pending deferred decrements; holders are bounded by the *initial* capacity;
hence `activeCount ≤ initial capacity + pending decrements`, and the bound
`activeCount ≤ capacity` is restored whenever no decrement is pending.
(The transient overshoot between a `release()` and its deferred
`_decrement_count` task is the only excess, as the counterexample shows.) -/
theorem semaphore_active_count_invariant (cap : Nat) (s : SemState)
    (h : SemReachable cap s) :
    0 ≤ s.active ∧
    s.active = (s.holders : Int) + (s.pendingDecs : Int) ∧
    s.holders ≤ cap ∧
    s.active ≤ (cap : Int) + (s.pendingDecs : Int) ∧
    (s.pendingDecs = 0 → s.active ≤ (cap : Int)) := by
  obtain ⟨h1, h2⟩ := semInv_reachable h
  have hh : s.holders ≤ cap := by omega
  refine ⟨?_, h1, hh, ?_, ?_⟩
  · rw [h1]; positivity
  · rw [h1]; omega
  · intro hp; rw [h1, hp]; push_cast; omega

theorem semaphore_active_count_invariant_witness :
    0 ≤ (AgentSemaphore.init 5).active ∧
    (AgentSemaphore.init 5).active =
      ((AgentSemaphore.init 5).holders : Int) +
        ((AgentSemaphore.init 5).pendingDecs : Int) ∧
    (AgentSemaphore.init 5).holders ≤ 5 ∧
    (AgentSemaphore.init 5).active ≤
      (5 : Int) + ((AgentSemaphore.init 5).pendingDecs : Int) ∧
    ((AgentSemaphore.init 5).pendingDecs = 0 →
      (AgentSemaphore.init 5).active ≤ (5 : Int)) :=
  semaphore_active_count_invariant 5 (AgentSemaphore.init 5)
    Relation.ReflTransGen.refl

/-! ## C3: `adjust_max`

`adjust_max(new_max)` only assigns `self._max = max(1, new_max)`; the
underlying `asyncio.Semaphore` — the object `acquire()` actually blocks on —
keeps its construction-time capacity.  So after reducing `_max` below the
number of in-flight holders, a new `acquire()` still succeeds whenever the
*original* capacity has a free slot, contradicting both the claim and the
method's own docstring ("Dynamically adjust max concurrent agents"). -/

/-- State after one acquire on a capacity-2 semaphore followed by
`adjust_max(1)`. -/
def semAdjusted : SemState :=
  { maxVal := 1, semAvail := 1, active := 1, pendingDecs := 0, holders := 1 }

/-- State after the subsequent (claim-violating) successful acquire. -/
def semAdjustedBad : SemState :=
  { maxVal := 1, semAvail := 0, active := 2, pendingDecs := 0, holders := 2 }

/-- Inversion: a step that increments `active` can only be an `acquire`, so
it requires a free slot of the *underlying* semaphore. -/
lemma semStep_active_inc {s t : SemState} (h : SemStep s t)
    (ha : t.active = s.active + 1) : 0 < s.semAvail := by
  cases h with
  | acquire h => exact h
  | release h =>
      exfalso
      have hx : s.active = s.active + 1 := ha
      omega
  | runDec h =>
      exfalso
      have hx : s.active - 1 = s.active + 1 := ha
      omega
  | adjustMax n =>
      exfalso
      have hx : s.active = s.active + 1 := ha
      omega

/-- **C3, code evaluation at the failing input.** `AgentSemaphore(2)`; one
slot acquired; `adjust_max(1)` (so `activeCount = 1 ≥ new capacity = 1`);
yet a further `acquire()` succeeds immediately — the code does not block new
acquires on the adjusted capacity, because `adjust_max` never resizes the
underlying `asyncio.Semaphore`.  Moreover `adjust_max` changes no field
except `maxVal` (no preemption), and acquire-enabledness depends only on
`semAvail`. -/
theorem adjust_max_does_not_gate_acquire :
    SemReachable 2 semAdjusted ∧
    (semAdjusted.maxVal : Int) ≤ semAdjusted.active ∧
    SemStep semAdjusted semAdjustedBad ∧
    (∀ s : SemState, ∀ n : Nat,
      SemStep s { s with maxVal := max 1 n } ∧
      (0 < s.semAvail ↔
        SemStep s { s with
          semAvail := s.semAvail - 1
          active := s.active + 1
          holders := s.holders + 1 })) := by
  refine ⟨?_, by decide, SemStep.acquire (by decide), ?_⟩
  · have h1 : SemStep (AgentSemaphore.init 2)
        { maxVal := 2, semAvail := 1, active := 1, pendingDecs := 0, holders := 1 } :=
      SemStep.acquire (by decide)
    have h2 : SemStep
        { maxVal := 2, semAvail := 1, active := 1, pendingDecs := 0, holders := 1 }
        semAdjusted := SemStep.adjustMax 1
    exact Relation.ReflTransGen.tail (Relation.ReflTransGen.single h1) h2
  · intro s n
    refine ⟨SemStep.adjustMax n, ?_, ?_⟩
    · exact fun h => SemStep.acquire h
    · intro hstep
      exact semStep_active_inc hstep rfl

/-! ## Plan parsing (`src/penguincode_cli/agents/planner.py`)

`PlannerAgent._parse_plan` scans the LLM output line by line through a
section state machine (`ANALYSIS:` / `STEPS:` / `PARALLEL_GROUPS:` /
`COMPLEXITY:`), parses step lines with `_parse_step` and group lines with
`_parse_parallel_group`, and defaults to one singleton group per step when
no parallel groups were collected.  The regular expressions of
`_parse_step` are embedded as explicit scanners below (ASCII semantics). -/

/-- Python `\s` / `str.strip()` whitespace (ASCII). -/
def pyIsSpace (c : Char) : Bool :=
  c = ' ' || c = '\t' || c = '\n' || c = '\r' || c = '\x0B' || c = '\x0C'

/-- `str.strip()` on a character list. -/
def stripChars (l : List Char) : List Char :=
  ((l.dropWhile pyIsSpace).reverse.dropWhile pyIsSpace).reverse

/-- `str.split(sep)` for a one-character separator (keeps empty pieces). -/
def splitChar (sep : Char) : List Char → List (List Char)
  | [] => [[]]
  | c :: rest =>
      let r := splitChar sep rest
      if c = sep then [] :: r
      else
        match r with
        | [] => [[c]]
        | h :: t => (c :: h) :: t

/-- `int(...)` on a digit run. -/
def digitsToNat (ds : List Char) : Nat :=
  ds.foldl (fun acc c => acc * 10 + (c.toNat - '0'.toNat)) 0

/-- `re.match(r"(\d+)\.", line)`: a nonempty leading digit run followed by
a dot. -/
def parseLeadingNum (l : List Char) : Option Nat :=
  let ds := l.takeWhile Char.isDigit
  if ds ≠ [] ∧ (l.drop ds.length).head? = some '.' then some (digitsToNat ds)
  else none

/-- `re.search(r"\[(explorer|executor)\]", line.lower())`: first position
where either literal tag matches (alternation tries `explorer` first). -/
def findAgentTag : List Char → Option String
  | [] => none
  | c :: rest =>
      if "[explorer]".toList.isPrefixOf (c :: rest) then some "explorer"
      else if "[executor]".toList.isPrefixOf (c :: rest) then some "executor"
      else findAgentTag rest

/-- `re.search(r"\(depends on:\s*([\d,\s]+)\)", line.lower())`: after a
literal `(depends on:`, a nonempty run over `[\d,\s]` followed by `)`;
the captured group is the run (the regex engine splits it into `\s*` and
`[\d,\s]+`, which does not affect the digits extracted from it). -/
def findDependsGroup : List Char → Option (List Char)
  | [] => none
  | c :: rest =>
      if "(depends on:".toList.isPrefixOf (c :: rest) then
        let after := (c :: rest).drop 12
        let run := after.takeWhile (fun ch => ch.isDigit || ch = ',' || pyIsSpace ch)
        if run ≠ [] ∧ (after.drop run.length).head? = some ')' then some run
        else findDependsGroup rest
      else findDependsGroup rest

/-- `[int(d.strip()) for d in deps_str.split(",") if d.strip().isdigit()]`. -/
def parseDeps (run : List Char) : List Nat :=
  (splitChar ',' run).filterMap (fun part =>
    let p := stripChars part
    if p ≠ [] ∧ p.all Char.isDigit then some (digitsToNat p) else none)

/-- `re.sub(r"^\d+\.\s*", "", line)`: strip one leading step number. -/
def dropNumDot (l : List Char) : List Char :=
  let ds := l.takeWhile Char.isDigit
  if ds ≠ [] ∧ (l.drop ds.length).head? = some '.' then
    (l.drop (ds.length + 1)).dropWhile pyIsSpace
  else l

/-- Length matched by `\[(explorer|executor)\]\s*` (IGNORECASE) at the head
of `l`, if any. -/
def agentTagLen (l : List Char) : Option Nat :=
  let low := l.map Char.toLower
  if "[explorer]".toList.isPrefixOf low || "[executor]".toList.isPrefixOf low then
    some (10 + ((l.drop 10).takeWhile pyIsSpace).length)
  else none

/-- Length matched by `\(depends on:[^)]+\)` (IGNORECASE) at the head of
`l`, if any. -/
def dependsClauseLen (l : List Char) : Option Nat :=
  let low := l.map Char.toLower
  if "(depends on:".toList.isPrefixOf low then
    let after := l.drop 12
    let run := after.takeWhile (fun ch => ch ≠ ')')
    if run ≠ [] ∧ (after.drop run.length).head? = some ')' then
      some (12 + run.length + 1)
    else none
  else none

/-- `re.sub(pat, "", s)`: remove all non-overlapping matches, scanning left
to right.  `pat` reports the match length at the current position; fuel is
the initial string length (every match consumes at least one character). -/
def subAll (pat : List Char → Option Nat) : Nat → List Char → List Char
  | 0, l => l
  | _ + 1, [] => []
  | fuel + 1, c :: rest =>
      match pat (c :: rest) with
      | some k => subAll pat fuel ((c :: rest).drop k)
      | none => c :: subAll pat fuel rest

/-- `re.findall(r"\d+", ...)`: maximal digit runs, in order.  The first
argument accumulates the current run. -/
def findAllNumsAux : List Char → List Char → List Nat
  | run, [] => if run ≠ [] then [digitsToNat run] else []
  | run, c :: rest =>
      if c.isDigit then findAllNumsAux (run ++ [c]) rest
      else if run ≠ [] then digitsToNat run :: findAllNumsAux [] rest
      else findAllNumsAux [] rest

def findAllNums (l : List Char) : List Nat := findAllNumsAux [] l

/-- `PlanStep` dataclass. -/
structure PlanStep where
  step_num : Nat
  agent_type : String
  description : String
  depends_on : List Nat
deriving Repr, DecidableEq

/-- `Plan` dataclass. -/
structure Plan where
  analysis : String
  steps : List PlanStep
  parallel_groups : List (List Nat)
  complexity : String
  raw_output : String
deriving Repr, DecidableEq

/-- `PlannerAgent._parse_step(line, default_num)` (the line is already
stripped by the caller). -/
def parseStep (l : List Char) (defaultNum : Nat) : Option PlanStep :=
  let low := l.map Char.toLower
  let stepNum := match parseLeadingNum l with
    | some n => n
    | none => defaultNum
  let agentType := match findAgentTag low with
    | some a => a
    | none => "executor"
  let dependsOn := match findDependsGroup low with
    | some run => parseDeps run
    | none => []
  let d1 := dropNumDot l
  let d2 := subAll agentTagLen d1.length d1
  let d3 := subAll dependsClauseLen d2.length d2
  let desc := stripChars d3
  if desc = [] then none
  else some { step_num := stepNum
              agent_type := agentType
              description := String.mk desc
              depends_on := dependsOn }

/-- `PlannerAgent._parse_parallel_group(line)`:
`re.findall(r"\d+", line.split(":")[1] if ":" in line else line)`. -/
def parseParallelGroup (l : List Char) : List Nat :=
  let target := if l.contains ':' then (splitChar ':' l).getD 1 [] else l
  findAllNums target

/-- The section the line scanner of `_parse_plan` is currently in. -/
inductive PSection where
  | nosec
  | analysis
  | steps
  | parallel
deriving Repr, DecidableEq

/-- Accumulator of the `_parse_plan` line loop (`analysis` is kept as a
character list so that scanning is fully kernel-computable). -/
structure ScanSt where
  analysis : List Char
  steps : List PlanStep
  groups : List (List Nat)
  complexity : String
  sec : PSection
deriving Repr, DecidableEq

def initScan : ScanSt :=
  { analysis := [], steps := [], groups := [], complexity := "moderate", sec := .nosec }

/-- One iteration of the `for line in lines` loop of `_parse_plan`. -/
def scanLine (st : ScanSt) (line : List Char) : ScanSt :=
  let ls := stripChars line
  if "ANALYSIS:".toList.isPrefixOf ls then
    { st with sec := .analysis, analysis := stripChars (ls.drop 9) }
  else if "STEPS:".toList.isPrefixOf ls then
    { st with sec := .steps }
  else if "PARALLEL_GROUPS:".toList.isPrefixOf ls then
    { st with sec := .parallel }
  else if "COMPLEXITY:".toList.isPrefixOf ls then
    let c := String.mk ((stripChars (ls.drop 11)).map Char.toLower)
    { st with complexity := if c ∈ ["simple", "moderate", "complex"] then c else "moderate" }
  else if st.sec = .analysis ∧ ls ≠ [] ∧
      ¬("STEPS".toList.isPrefixOf ls ∨ "PARALLEL".toList.isPrefixOf ls ∨
        "COMPLEXITY".toList.isPrefixOf ls) then
    { st with analysis := st.analysis ++ (' ' :: ls) }
  else if st.sec = .steps ∧ ls ≠ [] then
    match parseStep ls (st.steps.length + 1) with
    | some s => { st with steps := st.steps ++ [s] }
    | none => st
  else if st.sec = .parallel ∧ "- Group".toList.isPrefixOf ls then
    let g := parseParallelGroup ls
    if g ≠ [] then { st with groups := st.groups ++ [g] } else st
  else st

/-- The line scan of `_parse_plan` over `raw_output.split("\n")`. -/
def planScan (raw : String) : ScanSt :=
  (splitChar '\n' raw.toList).foldl scanLine initScan

/-- `PlannerAgent._parse_plan(raw_output)`. -/
def parsePlan (raw : String) : Plan :=
  let st := planScan raw
  let groups :=
    if st.groups = [] ∧ st.steps ≠ [] then st.steps.map (fun s => [s.step_num])
    else st.groups
  { analysis := String.mk (stripChars st.analysis)
    steps := st.steps
    parallel_groups := groups
    complexity := st.complexity
    raw_output := raw }

/-- **C10.** If the steps section of a planner output parses to a non-empty
step list but no parallel group is collected, `_parse_plan` returns a `Plan`
whose `parallel_groups` is one singleton group `[step_num]` per parsed step,
in parsed order — a plan with no declared parallelism still executes, one
group per step. -/
theorem parsePlan_default_sequential_groups (raw : String)
    (hsteps : (planScan raw).steps ≠ [])
    (hgroups : (planScan raw).groups = []) :
    (parsePlan raw).steps = (planScan raw).steps ∧
    (parsePlan raw).parallel_groups =
      (parsePlan raw).steps.map (fun s => [s.step_num]) := by
  refine ⟨rfl, ?_⟩
  simp only [parsePlan]
  rw [if_pos (And.intro hgroups hsteps)]

theorem parsePlan_default_sequential_groups_witness :
    ((planScan "STEPS:\n1. [explorer] look around").steps ≠ [] ∧
     (planScan "STEPS:\n1. [explorer] look around").groups = []) ∧
    ((parsePlan "STEPS:\n1. [explorer] look around").steps =
       (planScan "STEPS:\n1. [explorer] look around").steps ∧
     (parsePlan "STEPS:\n1. [explorer] look around").parallel_groups =
       (parsePlan "STEPS:\n1. [explorer] look around").steps.map
         (fun s => [s.step_num])) :=
  ⟨⟨by decide, by decide⟩,
   parsePlan_default_sequential_groups "STEPS:\n1. [explorer] look around"
     (by decide) (by decide)⟩

/-! ## Plan execution (`ChatAgent._execute_plan` / `_spawn_agents_parallel`)

`_spawn_agents_parallel(tasks)` runs one `run_task(agent_type, task, i)`
coroutine per input position, gathers them with
`asyncio.gather(..., return_exceptions=True)` (which yields results in
*input* order, regardless of completion order), and rebuilds the result
list: a normal result `(index, success, output)` is stored at its own
index, an exception is stored at the first still-empty slot.

`_execute_plan(plan, ...)` then iterates `plan.parallel_groups` in order,
runs the steps of each group (`[s for s in plan.steps if s.step_num in
group]` — i.e. *steps-list* order) and appends
`f"### Step {num}: {description}\n{output}"` per step; the combined report
is the `"\n\n"`-join of these entries. -/

/-- One element of the `asyncio.gather(..., return_exceptions=True)` result
list: either an exception raised by `run_task` or its `(index, success,
output)` value. -/
inductive GatherItem where
  | exc (msg : String)
  | res (index : Nat) (success : Bool) (output : String)
deriving Repr, DecidableEq

/-- `for i in range(len(results)): if results[i] is None: results[i] = (False, str(result)); break`. -/
def fillFirstEmpty (m : String) :
    List (Option (Bool × String)) → List (Option (Bool × String))
  | [] => []
  | none :: rest => some (false, m) :: rest
  | some r :: rest => some r :: fillFirstEmpty m rest

/-- Processing of one gathered item in the result-rebuild loop of
`_spawn_agents_parallel`. -/
def placeOne (results : List (Option (Bool × String))) :
    GatherItem → List (Option (Bool × String))
  | .res i s o => results.set i (some (s, o))
  | .exc m => fillFirstEmpty m results

/-- The result-rebuild of `_spawn_agents_parallel` with `n = len(tasks)`,
parameterized by the order in which the gathered items are processed. -/
def spawnAgentsParallel (n : Nat) (items : List GatherItem) :
    List (Option (Bool × String)) :=
  items.foldl placeOne (List.replicate n none)

/-- The gathered items in input order: the step at input position `i`
produced `(i, success, output)` where `(success, output)` is the outcome of
that step's `_spawn_agent` run, keyed here by step number. -/
def groupItems (steps : List PlanStep) (outcome : Nat → Bool × String) :
    List GatherItem :=
  steps.enum.map (fun p =>
    GatherItem.res p.1 (outcome p.2.step_num).1 (outcome p.2.step_num).2)

/-- `group_steps = [s for s in plan.steps if s.step_num in group]`. -/
def groupSteps (plan : Plan) (group : List Nat) : List PlanStep :=
  plan.steps.filter (fun s => group.contains s.step_num)

/-- `f"### Step {step.step_num}: {step.description}\n{output}"`. -/
def stepHeader (s : PlanStep) (out : String) : String :=
  "### Step " ++ toString s.step_num ++ ": " ++ s.description ++ "\n" ++ out

/-- `"\n\n".join(...)` (and `"sep".join` in general). -/
def joinSep (sep : String) : List String → String
  | [] => ""
  | [x] => x
  | x :: y :: xs => x ++ sep ++ joinSep sep (y :: xs)

/-- The `all_outputs` list built by `_execute_plan`: groups in declared
order; within a group, `group_steps` (steps-list) order; each step's entry
from the result the rebuild loop put at its input position. -/
def executePlanOutputs (plan : Plan) (items : Nat → List GatherItem) :
    List String :=
  (plan.parallel_groups.enum.map (fun gi =>
    let gsteps := groupSteps plan gi.2
    let results := spawnAgentsParallel gsteps.length (items gi.1)
    (gsteps.zip results.reduceOption).map (fun sr => stepHeader sr.1 sr.2.2))).flatten

/-- `combined = "\n\n".join(all_outputs)` of `_execute_plan`. -/
def executePlanCombined (plan : Plan) (items : Nat → List GatherItem) : String :=
  joinSep "\n\n" (executePlanOutputs plan items)

/-- The order in which `_execute_plan` emits per-step outputs: groups in
declared order, steps within a group in steps-list order. -/
def executePlanOrder (plan : Plan) : List PlanStep :=
  (plan.parallel_groups.map (groupSteps plan)).flatten

/-- The §3 plan invariants: every step number in exactly one group;
dependencies in strictly earlier groups; agent types restricted to
explorer/executor. -/
def PlanInvariants (p : Plan) : Prop :=
  (∀ s ∈ p.steps, (p.parallel_groups.map (fun g => g.count s.step_num)).sum = 1) ∧
  (∀ s ∈ p.steps, ∃ i < p.parallel_groups.length,
      s.step_num ∈ p.parallel_groups.getD i [] ∧
      ∀ d ∈ s.depends_on, ∃ j < i, d ∈ p.parallel_groups.getD j []) ∧
  (∀ s ∈ p.steps, s.agent_type = "explorer" ∨ s.agent_type = "executor")

instance (p : Plan) : Decidable (PlanInvariants p) := by
  unfold PlanInvariants
  infer_instance

/-- Sequential overwrite `acc[k..k+|vs|-1] := vs`. -/
def listOverwrite {α : Type} (acc : List α) (k : Nat) (vs : List α) : List α :=
  match vs with
  | [] => acc
  | v :: vs => listOverwrite (acc.set k v) (k + 1) vs

lemma listOverwrite_cons_succ {α : Type} (a : α) (acc : List α) (k : Nat)
    (vs : List α) :
    listOverwrite (a :: acc) (k + 1) vs = a :: listOverwrite acc k vs := by
  induction vs generalizing a acc k with
  | nil => rfl
  | cons v vs ih =>
      show listOverwrite ((a :: acc).set (k + 1) v) (k + 2) vs = _
      show listOverwrite (a :: acc.set k v) (k + 2) vs = _
      rw [ih]
      rfl

lemma listOverwrite_replicate {α : Type} (vs : List α) (d : α) :
    listOverwrite (List.replicate vs.length d) 0 vs = vs := by
  induction vs with
  | nil => rfl
  | cons v vs ih =>
      show listOverwrite ((d :: List.replicate vs.length d).set 0 v) 1 vs = _
      show listOverwrite (v :: List.replicate vs.length d) 1 vs = _
      rw [listOverwrite_cons_succ, ih]

lemma foldl_placeOne_enumFrom (steps : List PlanStep)
    (outcome : Nat → Bool × String) :
    ∀ (k : Nat) (acc : List (Option (Bool × String))),
    List.foldl placeOne acc
      ((List.enumFrom k steps).map (fun p =>
        GatherItem.res p.1 (outcome p.2.step_num).1 (outcome p.2.step_num).2)) =
    listOverwrite acc k (steps.map (fun s => some (outcome s.step_num))) := by
  induction steps with
  | nil => intro k acc; rfl
  | cons s rest ih =>
      intro k acc
      simp only [List.enumFrom_cons, List.map_cons, List.foldl_cons]
      exact ih (k + 1) (acc.set k (some (outcome s.step_num)))

/-- With the gathered items in input order, the rebuild loop reproduces the
per-step outcomes at their own positions. -/
lemma spawnAgentsParallel_canonical (steps : List PlanStep)
    (outcome : Nat → Bool × String) :
    spawnAgentsParallel steps.length (groupItems steps outcome) =
      steps.map (fun s => some (outcome s.step_num)) := by
  unfold spawnAgentsParallel groupItems
  rw [List.enum_eq_enumFrom, foldl_placeOne_enumFrom]
  have h := listOverwrite_replicate
    (steps.map (fun s => some (outcome s.step_num))) (none : Option (Bool × String))
  rwa [List.length_map] at h

lemma groupItems_mem {steps : List PlanStep} {outcome : Nat → Bool × String}
    {x : GatherItem} (hx : x ∈ groupItems steps outcome) :
    ∃ i s, steps[i]? = some s ∧
      x = GatherItem.res i (outcome s.step_num).1 (outcome s.step_num).2 := by
  unfold groupItems at hx
  obtain ⟨⟨i, s⟩, hmem, rfl⟩ := List.mem_map.1 hx
  exact ⟨i, s, List.mk_mem_enum_iff_getElem?.1 hmem, rfl⟩

lemma placeOne_comm {steps : List PlanStep} {outcome : Nat → Bool × String}
    {x y : GatherItem} (hx : x ∈ groupItems steps outcome)
    (hy : y ∈ groupItems steps outcome) (z : List (Option (Bool × String))) :
    placeOne (placeOne z x) y = placeOne (placeOne z y) x := by
  obtain ⟨i, s, hi, rfl⟩ := groupItems_mem hx
  obtain ⟨j, t, hj, rfl⟩ := groupItems_mem hy
  by_cases hij : i = j
  · subst hij
    rw [hi] at hj
    cases hj
    rfl
  · exact List.set_comm _ _ z hij

/-- The rebuild loop is insensitive to the processing order of tagged
results: any permutation of the input-order items yields the input-order
outcome list. -/
lemma spawnAgentsParallel_perm (steps : List PlanStep)
    (outcome : Nat → Bool × String) (items : List GatherItem)
    (h : items.Perm (groupItems steps outcome)) :
    spawnAgentsParallel steps.length items =
      steps.map (fun s => some (outcome s.step_num)) := by
  unfold spawnAgentsParallel
  rw [List.Perm.foldl_eq' h
    (fun x hx y hy z => placeOne_comm (h.mem_iff.1 hx) (h.mem_iff.1 hy) z)]
  exact spawnAgentsParallel_canonical steps outcome

lemma reduceOption_map_some {α β : Type} (l : List α) (f : α → β) :
    (l.map (fun a => some (f a))).reduceOption = l.map f := by
  induction l with
  | nil => rfl
  | cons a l ih =>
      have h : (List.map (fun a => some (f a)) (a :: l)).reduceOption =
          f a :: (List.map (fun a => some (f a)) l).reduceOption := rfl
      rw [h, ih, List.map_cons]

lemma zip_map_self {α β γ : Type} (l : List α) (f : α → β) (h : α → β → γ) :
    (l.zip (l.map f)).map (fun p => h p.1 p.2) = l.map (fun a => h a (f a)) := by
  induction l with
  | nil => rfl
  | cons a l ih => simp only [List.map_cons, List.zip_cons_cons, ih]

lemma enum_map_snd_fn {α β : Type} (l : List α) (F : α → β) :
    l.enum.map (fun p => F p.2) = l.map F := by
  rw [show (fun p : Nat × α => F p.2) = F ∘ Prod.snd from rfl, ← List.map_map,
    List.enum_map_snd]

/-- **C5 (amended).** The combined report of the plan executor is a function
of the per-step outcomes alone, independent of the order in which the
concurrently running steps complete (any permutation of each group's
gathered results yields the same report), and it concatenates the per-step
outputs with groups in declared order and, within each group, in the order
the steps appear in the parsed steps list (ascending step-number order only
when that list is ascending). -/
theorem executePlan_combined_deterministic (plan : Plan)
    (outcome : Nat → Bool × String) (items : Nat → List GatherItem)
    (hperm : ∀ gi ∈ plan.parallel_groups.enum,
        (items gi.1).Perm (groupItems (groupSteps plan gi.2) outcome)) :
    executePlanCombined plan items =
      joinSep "\n\n" ((executePlanOrder plan).map
        (fun s => stepHeader s (outcome s.step_num).2)) := by
  unfold executePlanCombined executePlanOutputs executePlanOrder
  congr 1
  have hgrp : ∀ gi ∈ plan.parallel_groups.enum,
      (let gsteps := groupSteps plan gi.2
       let results := spawnAgentsParallel gsteps.length (items gi.1)
       (gsteps.zip results.reduceOption).map (fun sr => stepHeader sr.1 sr.2.2)) =
      (groupSteps plan gi.2).map (fun s => stepHeader s (outcome s.step_num).2) := by
    intro gi hgi
    simp only []
    rw [spawnAgentsParallel_perm _ _ _ (hperm gi hgi),
      reduceOption_map_some (groupSteps plan gi.2) (fun s => outcome s.step_num),
      zip_map_self (groupSteps plan gi.2) (fun s => outcome s.step_num)
        (fun s r => stepHeader s r.2)]
  rw [List.map_congr_left hgrp,
    enum_map_snd_fn plan.parallel_groups
      (fun g => (groupSteps plan g).map (fun s => stepHeader s (outcome s.step_num).2)),
    List.map_flatten, List.map_map]
  rfl

/-- Planner output whose steps section lists step 2 before step 1; it parses
to a plan satisfying every §3 invariant. -/
def demoPlanRaw : String :=
  "STEPS:\n2. [executor] write module b\n1. [explorer] read module a\nPARALLEL_GROUPS:\n- Group 1: steps 1, 2\nCOMPLEXITY: simple"

def demoPlan : Plan := parsePlan demoPlanRaw

def demoOutcome : Nat → Bool × String :=
  fun n => (true, if n = 1 then "A" else "B")

/-- Input-order gathered items for each group of `demoPlan`. -/
def demoItems : Nat → List GatherItem := fun g =>
  match demoPlan.parallel_groups[g]? with
  | some group => groupItems (groupSteps demoPlan group) demoOutcome
  | none => []

/-- **C5, counterexample.** `demoPlan` is a parsed plan satisfying the §3
invariants, yet the plan executor emits step 2's output before step 1's:
the combined report is *not* in ascending step-number order. -/
theorem executePlan_order_counterexample :
    PlanInvariants demoPlan ∧
    (executePlanOrder demoPlan).map (fun s => s.step_num) = [2, 1] ∧
    executePlanCombined demoPlan demoItems =
      "### Step 2: write module b\nB\n\n### Step 1: read module a\nA" := by
  refine ⟨by decide, by decide, by decide⟩

/-- Gathered items processed in reversed order (a different completion
order of the same outcomes). -/
def demoItemsRev : Nat → List GatherItem := fun g => (demoItems g).reverse

theorem executePlan_combined_deterministic_witness :
    (∀ gi ∈ demoPlan.parallel_groups.enum,
        (demoItemsRev gi.1).Perm (groupItems (groupSteps demoPlan gi.2) demoOutcome)) ∧
    executePlanCombined demoPlan demoItemsRev =
      joinSep "\n\n" ((executePlanOrder demoPlan).map
        (fun s => stepHeader s (demoOutcome s.step_num).2)) :=
  ⟨by decide,
   executePlan_combined_deterministic demoPlan demoOutcome demoItemsRev (by decide)⟩

/-! ## Review, supervision and escalation (`ChatAgent`)

`_review_and_supervise(user_request, agent_type, agent_output,
agent_success, round_num)`:

1. `if round_num >= self.max_supervision_rounds: return agent_output`
   (the "Max supervision rounds reached" warning is printed to the console
   and is not part of the returned message);
2. `if agent_output.startswith("ESCALATION_NEEDED:")`: strip the prefix and
   call `_handle_escalation(user_request, context, round_num)`;
3. otherwise call the review LLM: if its first tool call is
   `spawn_explorer`/`spawn_executor`, dispatch that worker and recurse with
   `round_num + 1`; otherwise return the review text, or the agent output
   when the text is empty (LLM errors are caught inside `_call_llm` and
   surface as empty text).

`_handle_escalation` calls the escalation LLM: `spawn_planner` dispatches
the planner, parses its output, and when the plan has steps runs
`_execute_plan` — whose review (`_review_plan_execution`) restarts at
`round_num = 1`; `spawn_explorer`/`spawn_executor` dispatch a worker and
recurse into review with `round_num + 1`; otherwise the LLM's text (or a
fixed could-not-complete message) is returned.

The LLM decisions and worker outcomes are oracles indexed by call counts;
fuel bounds the recursion depth (`none` = the computation did not finish
within the given fuel). -/

/-- Effect of the first tool call of one review LLM response (other tool
names and no-tool responses behave as `finalText`). -/
inductive ReviewAct where
  | followUpExplorer (task : String)
  | followUpExecutor (task : String)
  | finalText (text : String)

/-- Effect of the first tool call of one escalation LLM response. -/
inductive EscAct where
  | planner (task : String)
  | explorer (task : String)
  | executor (task : String)
  | finalText (text : String)

def EscAct.isPlanner : EscAct → Bool
  | .planner _ => true
  | _ => false

/-- Oracles for one `process()` turn: worker run outcomes by dispatch
index, review decisions by review-call index, escalation decisions by
escalation-call index. -/
structure OrchEnv where
  maxRounds : Nat
  timeoutSecs : Nat
  worker : Nat → RunOutcome
  reviewLLM : Nat → ReviewAct
  escLLM : Nat → EscAct

/-- Call counters: `_spawn_agent` dispatches, review LLM calls, escalation
LLM calls. -/
structure OrchCnt where
  d : Nat
  r : Nat
  e : Nat
deriving Repr, DecidableEq

/-- One `_spawn_agent` dispatch (via `spawnAgent`, i.e. under the
semaphore with timeout and escalation encoding). -/
def dispatchAgent (env : OrchEnv) (agentType : String) (c : OrchCnt) :
    (Bool × String) × OrchCnt :=
  ((spawnAgent agentType env.timeoutSecs (env.worker c.d)).2,
   { c with d := c.d + 1 })

/-- The step runs of one parallel group inside `_execute_plan`
(each through `_spawn_agent`; gather returns them in input order). -/
def runPlanSteps (env : OrchEnv) : List PlanStep → OrchCnt →
    List (Bool × String) × OrchCnt
  | [], c => ([], c)
  | s :: rest, c =>
      let (res, c1) := dispatchAgent env s.agent_type c
      let (more, c2) := runPlanSteps env rest c1
      (res :: more, c2)

/-- All groups of a plan, in declared order. -/
def runGroups (env : OrchEnv) (plan : Plan) :
    List (List Nat) → OrchCnt →
    List (List (PlanStep × (Bool × String))) × OrchCnt
  | [], c => ([], c)
  | g :: rest, c =>
      let gsteps := groupSteps plan g
      let (results, c1) := runPlanSteps env gsteps c
      let (more, c2) := runGroups env plan rest c1
      (gsteps.zip results :: more, c2)

/-- The call being interpreted: `_review_and_supervise` /
`_handle_escalation` / `_execute_plan` (the three methods are mutually
recursive; they are interpreted by the single fuel-indexed function
`orchRun` below, one unit of fuel per call). -/
inductive OrchCall where
  | review (agentType agentOutput : String) (agentSuccess : Bool) (round : Nat)
  | escalate (escCtx : String) (round : Nat)
  | execPlan (plan : Plan)

/-- Interpreter for the supervision recursion of `ChatAgent`.

* `.review` is `_review_and_supervise(user_request, agent_type,
  agent_output, agent_success, round_num)`;
* `.escalate` is `_handle_escalation(user_request, escalation_context,
  round_num)`;
* `.execPlan` is `_execute_plan(plan, user_request)` followed by
  `_review_plan_execution`, which restarts review at `round_num = 1`.

`none` means the computation did not finish within the given fuel. -/
def orchRun (env : OrchEnv) (userReq : String) :
    Nat → OrchCall → OrchCnt → Option String × OrchCnt
  | 0, _, c => (none, c)
  | fuel + 1, .review _agentType agentOutput _agentSuccess round, c =>
      if env.maxRounds ≤ round then (some agentOutput, c)
      else if "ESCALATION_NEEDED:".toList.isPrefixOf agentOutput.toList then
        orchRun env userReq fuel
          (.escalate (String.mk (agentOutput.toList.drop 18)) round) c
      else
        let c1 := { c with r := c.r + 1 }
        match env.reviewLLM c.r with
        | .followUpExplorer _ =>
            let rc := dispatchAgent env "explorer" c1
            orchRun env userReq fuel (.review "explorer" rc.1.2 rc.1.1 (round + 1)) rc.2
        | .followUpExecutor _ =>
            let rc := dispatchAgent env "executor" c1
            orchRun env userReq fuel (.review "executor" rc.1.2 rc.1.1 (round + 1)) rc.2
        | .finalText t => (some (if t = "" then agentOutput else t), c1)
  | fuel + 1, .escalate _escCtx round, c =>
      let c1 := { c with e := c.e + 1 }
      match env.escLLM c.e with
      | .planner _ =>
          let rc := dispatchAgent env "planner" c1
          if rc.1.1 then
            let plan := parsePlan rc.1.2
            if plan.steps ≠ [] then orchRun env userReq fuel (.execPlan plan) rc.2
            else (some rc.1.2, rc.2)
          else (some rc.1.2, rc.2)
      | .explorer _ =>
          let rc := dispatchAgent env "explorer" c1
          orchRun env userReq fuel (.review "explorer" rc.1.2 rc.1.1 (round + 1)) rc.2
      | .executor _ =>
          let rc := dispatchAgent env "executor" c1
          orchRun env userReq fuel (.review "executor" rc.1.2 rc.1.1 (round + 1)) rc.2
      | .finalText t =>
          (some (if t = "" then
            "The task could not be completed. The orchestrator was unable to find a solution."
          else t), c1)
  | fuel + 1, .execPlan plan, c =>
      let gc := runGroups env plan plan.parallel_groups c
      let combined := joinSep "\n\n"
        ((gc.1.map (fun grp => grp.map (fun p => stepHeader p.1 p.2.2))).flatten)
      let allOk := gc.1.flatten.all (fun p => p.2.1)
      orchRun env userReq fuel (.review "plan_execution" combined allOk 1) gc.2

/-- `ChatAgent._review_and_supervise`. -/
def reviewSupervise (env : OrchEnv) (fuel : Nat)
    (userReq agentType agentOutput : String) (agentSuccess : Bool)
    (round : Nat) (c : OrchCnt) : Option String × OrchCnt :=
  orchRun env userReq fuel (.review agentType agentOutput agentSuccess round) c

/-- The `spawn_executor` dispatch branch of `ChatAgent.process`: one worker
dispatch, then review/supervision starting at `round_num = 1`. -/
def processExecutorRoute (env : OrchEnv) (fuel : Nat) (userReq : String) :
    Option String × OrchCnt :=
  let (res, c1) := dispatchAgent env "executor" { d := 0, r := 0, e := 0 }
  reviewSupervise env fuel userReq "executor" res.2 res.1 1 c1

/-- Substring test (for the "max rounds reached" marker). -/
def hasSub (pat : List Char) : List Char → Bool
  | [] => pat.isEmpty
  | c :: rest => pat.isPrefixOf (c :: rest) || hasSub pat rest

def containsSub (pat s : String) : Bool := hasSub pat.toList s.toList

/-- A worker that always requests escalation, with an escalation handler
that keeps re-dispatching the executor. -/
def envMarker : OrchEnv :=
  { maxRounds := 3
    timeoutSecs := 300
    worker := fun _ => .finished true "stuck" false "" none
    reviewLLM := fun _ => .finalText ""
    escLLM := fun _ => .executor "retry" }

/-- A worker that escalates on every supervised run, with an escalation
handler that always picks the planner; the planner produces a one-step plan
and the plan's review always asks for an executor follow-up, which
escalates again: plan execution restarts supervision at round 1, so the
turn never reaches a terminal state. -/
def envCycle : OrchEnv :=
  { maxRounds := 3
    timeoutSecs := 300
    worker := fun k =>
      if k % 3 = 0 then .finished true "stuck" false "" none
      else if k % 3 = 1 then
        .finished false "" true "STEPS:\n1. [executor] do part" none
      else .finished false "" true "done" none
    reviewLLM := fun _ => .followUpExecutor "continue"
    escLLM := fun _ => .planner "decompose" }

/-- **C4, counterexample.**  (i) `envMarker`: the turn stops at the round
bound and the message returned to the caller is the raw last worker output
`"ESCALATION_NEEDED:stuck"` — it contains no "max rounds reached" marker
(that warning goes to the console only).  (ii) `envCycle`: the
escalation→planner→plan-execution path resets the supervision round to 1,
so the turn performs at least 4 worker dispatches (more than
`maxSupervisionRounds = 3`) and still has not reached a terminal state. -/
theorem supervision_counterexample :
    ((processExecutorRoute envMarker 10 "do the task").1 =
        some "ESCALATION_NEEDED:stuck" ∧
     (processExecutorRoute envMarker 10 "do the task").2.d = 3 ∧
     containsSub "rounds" "ESCALATION_NEEDED:stuck" = false) ∧
    ((processExecutorRoute envCycle 12 "do the task").1 = none ∧
     4 ≤ (processExecutorRoute envCycle 12 "do the task").2.d) := by
  refine ⟨⟨by decide, by decide, by decide⟩, ⟨by decide, by decide⟩⟩

lemma reviewSupervise_at_bound (env : OrchEnv) (fuel : Nat)
    (ur at_ out : String) (succ : Bool) (round : Nat) (c : OrchCnt)
    (hround : env.maxRounds ≤ round) (hfuel : 1 ≤ fuel) :
    reviewSupervise env fuel ur at_ out succ round c = (some out, c) := by
  cases fuel with
  | zero => omega
  | succ fuel =>
      show orchRun env ur (fuel + 1) (.review at_ out succ round) c = (some out, c)
      rw [orchRun, if_pos hround]

/-- Simultaneous fuel/dispatch bounds for review and escalation when the
escalation oracle never picks the planner. -/
lemma supervision_bound_aux (env : OrchEnv) (ur : String)
    (hesc : ∀ k, (env.escLLM k).isPlanner = false) :
    ∀ fuel : Nat,
      (∀ at_ out succ round c,
        2 * (env.maxRounds - round) + 1 ≤ fuel →
        ((orchRun env ur fuel (.review at_ out succ round) c).1.isSome = true ∧
         (orchRun env ur fuel (.review at_ out succ round) c).2.d ≤
           c.d + (env.maxRounds - round))) ∧
      (∀ ctx round c,
        2 * (env.maxRounds - round) ≤ fuel → round < env.maxRounds →
        ((orchRun env ur fuel (.escalate ctx round) c).1.isSome = true ∧
         (orchRun env ur fuel (.escalate ctx round) c).2.d ≤
           c.d + (env.maxRounds - round))) := by
  intro fuel
  induction fuel with
  | zero =>
      exact ⟨fun at_ out succ round c hf => by omega,
             fun ctx round c hf hr => by omega⟩
  | succ fuel ih =>
      obtain ⟨ihr, ihe⟩ := ih
      constructor
      · intro at_ out succ round c hf
        rw [orchRun]
        by_cases hb : env.maxRounds ≤ round
        · rw [if_pos hb]
          exact ⟨rfl, Nat.le_add_right _ _⟩
        · rw [if_neg hb]
          by_cases hpre :
              "ESCALATION_NEEDED:".toList.isPrefixOf out.toList = true
          · rw [if_pos hpre]
            exact ihe (String.mk (out.toList.drop 18)) round c (by omega) (by omega)
          · rw [if_neg hpre]
            cases hrl : env.reviewLLM c.r with
            | followUpExplorer task =>
                have h := ihr "explorer"
                  (dispatchAgent env "explorer" { c with r := c.r + 1 }).1.2
                  (dispatchAgent env "explorer" { c with r := c.r + 1 }).1.1
                  (round + 1)
                  (dispatchAgent env "explorer" { c with r := c.r + 1 }).2
                  (by omega)
                have hle : (dispatchAgent env "explorer" { c with r := c.r + 1 }).2.d +
                    (env.maxRounds - (round + 1)) ≤ c.d + (env.maxRounds - round) := by
                  have hd : (dispatchAgent env "explorer" { c with r := c.r + 1 }).2.d
                      = c.d + 1 := rfl
                  omega
                exact ⟨h.1, h.2.trans hle⟩
            | followUpExecutor task =>
                have h := ihr "executor"
                  (dispatchAgent env "executor" { c with r := c.r + 1 }).1.2
                  (dispatchAgent env "executor" { c with r := c.r + 1 }).1.1
                  (round + 1)
                  (dispatchAgent env "executor" { c with r := c.r + 1 }).2
                  (by omega)
                have hle : (dispatchAgent env "executor" { c with r := c.r + 1 }).2.d +
                    (env.maxRounds - (round + 1)) ≤ c.d + (env.maxRounds - round) := by
                  have hd : (dispatchAgent env "executor" { c with r := c.r + 1 }).2.d
                      = c.d + 1 := rfl
                  omega
                exact ⟨h.1, h.2.trans hle⟩
            | finalText t => exact ⟨rfl, Nat.le_add_right _ _⟩
      · intro ctx round c hf hr
        rw [orchRun]
        cases hel : env.escLLM c.e with
        | planner task =>
            exfalso
            have hp := hesc c.e
            rw [hel] at hp
            simp [EscAct.isPlanner] at hp
        | explorer task =>
            have h := ihr "explorer"
              (dispatchAgent env "explorer" { c with e := c.e + 1 }).1.2
              (dispatchAgent env "explorer" { c with e := c.e + 1 }).1.1
              (round + 1)
              (dispatchAgent env "explorer" { c with e := c.e + 1 }).2
              (by omega)
            have hle : (dispatchAgent env "explorer" { c with e := c.e + 1 }).2.d +
                (env.maxRounds - (round + 1)) ≤ c.d + (env.maxRounds - round) := by
              have hd : (dispatchAgent env "explorer" { c with e := c.e + 1 }).2.d
                  = c.d + 1 := rfl
              omega
            exact ⟨h.1, h.2.trans hle⟩
        | executor task =>
            have h := ihr "executor"
              (dispatchAgent env "executor" { c with e := c.e + 1 }).1.2
              (dispatchAgent env "executor" { c with e := c.e + 1 }).1.1
              (round + 1)
              (dispatchAgent env "executor" { c with e := c.e + 1 }).2
              (by omega)
            have hle : (dispatchAgent env "executor" { c with e := c.e + 1 }).2.d +
                (env.maxRounds - (round + 1)) ≤ c.d + (env.maxRounds - round) := by
              have hd : (dispatchAgent env "executor" { c with e := c.e + 1 }).2.d
                  = c.d + 1 := rfl
              omega
            exact ⟨h.1, h.2.trans hle⟩
        | finalText t => exact ⟨rfl, Nat.le_add_right _ _⟩

/-- **C4 (amended).** When review follow-ups and escalation retries
dispatch only explorer or executor workers (the escalation oracle never
picks the planner), a `process()` turn routed to the executor reaches a
terminal state, performing at most `maxSupervisionRounds` worker dispatches
in total; and whenever the round bound is reached, the last worker output
is returned verbatim — unchanged, with no marker added (the "max rounds
reached" warning is printed to the console only).  The
escalation→planner→plan-execution path is excluded because it restarts
supervision at round 1 and can exceed the bound (see the counterexample). -/
theorem process_supervision_bounded (env : OrchEnv) (fuel : Nat)
    (userReq : String)
    (hesc : ∀ k, (env.escLLM k).isPlanner = false)
    (hmax : 1 ≤ env.maxRounds)
    (hfuel : 2 * env.maxRounds + 1 ≤ fuel) :
    (processExecutorRoute env fuel userReq).1.isSome = true ∧
    (processExecutorRoute env fuel userReq).2.d ≤ env.maxRounds ∧
    (∀ fuel' ur at_ out succ round c, env.maxRounds ≤ round → 1 ≤ fuel' →
      reviewSupervise env fuel' ur at_ out succ round c = (some out, c)) := by
  have haux := (supervision_bound_aux env userReq hesc fuel).1
  have h := haux "executor"
    (dispatchAgent env "executor" { d := 0, r := 0, e := 0 }).1.2
    (dispatchAgent env "executor" { d := 0, r := 0, e := 0 }).1.1
    1 (dispatchAgent env "executor" { d := 0, r := 0, e := 0 }).2
    (by omega)
  refine ⟨h.1, ?_, fun fuel' ur at_ out succ round c h1 h2 =>
    reviewSupervise_at_bound env fuel' ur at_ out succ round c h1 h2⟩
  have hd : (dispatchAgent env "executor" { d := 0, r := 0, e := 0 }).2.d = 1 := rfl
  have h2 := h.2
  show (orchRun env userReq fuel (.review "executor"
    (dispatchAgent env "executor" { d := 0, r := 0, e := 0 }).1.2
    (dispatchAgent env "executor" { d := 0, r := 0, e := 0 }).1.1 1)
    (dispatchAgent env "executor" { d := 0, r := 0, e := 0 }).2).2.d ≤ env.maxRounds
  omega

theorem process_supervision_bounded_witness :
    ((∀ k, (envMarker.escLLM k).isPlanner = false) ∧ 1 ≤ envMarker.maxRounds ∧
      2 * envMarker.maxRounds + 1 ≤ 10) ∧
    ((processExecutorRoute envMarker 10 "fix the bug").1.isSome = true ∧
     (processExecutorRoute envMarker 10 "fix the bug").2.d ≤ envMarker.maxRounds ∧
     (∀ fuel' ur at_ out succ round c, envMarker.maxRounds ≤ round → 1 ≤ fuel' →
       reviewSupervise envMarker fuel' ur at_ out succ round c = (some out, c))) :=
  ⟨⟨fun _ => rfl, by decide, by decide⟩,
   process_supervision_bounded envMarker 10 "fix the bug" (fun _ => rfl)
     (by decide) (by decide)⟩

/-! ## Worker tool-use loop and capability gating
(`src/penguincode/agents/base.py`, class `BaseAgent`)

`_init_tools` registers tools according to the agent's permission list
(READ → `read`; SEARCH → `grep`, `glob`; BASH → `bash`; WRITE → `write`,
`edit`).  `execute_tool` returns a synthetic failed `ToolResult` when the
requested tool is not in the registry and only then dispatches to the tool.
`_execute_tool_call` pre-checks the registry, formats results, and feeds
the string back into the loop.  `agentic_loop` iterates LLM call → tool-call
extraction (structured, then `_parse_tool_calls` on the text, then
`_detect_tool_intent`) → tool execution, bounded by
`config.max_iterations`.

The LLM stream, the JSON/keyword extraction functions and the tool
implementations are oracles: the loop consumes only their outputs
(`_parse_tool_calls` builds on `json.loads`, which has no shallow
embedding here; the loop's control flow never inspects their internals). -/

/-- `Permission` enum. -/
inductive Permission where
  | read
  | search
  | bash
  | write
  | web
deriving Repr, DecidableEq

/-- `AgentConfig` (fields the loop and the tool registry consume;
`temperature`, `max_tokens`, `system_prompt` do not affect the claims). -/
structure AgentConfig where
  name : String
  permissions : List Permission
  max_iterations : Nat
deriving Repr, DecidableEq

/-- A tool call `{name, arguments}` after argument normalization. -/
structure ToolCall where
  name : String
  arguments : List (String × String)
deriving Repr, DecidableEq

/-- `ToolResult` from `penguincode.tools`. -/
structure ToolResult where
  success : Bool
  data : Option String
  error : Option String
deriving Repr, DecidableEq

/-- `AgentResult` (fields used by the loop; `tokens_used`/`duration_ms`
are telemetry floats and are not modelled). -/
structure AgentResult where
  agent_name : String
  success : Bool
  output : String
  error : Option String
  toolCallsLog : List (ToolCall × String)
deriving Repr, DecidableEq

/-- `BaseAgent._init_tools`: the registry keys, in registration order. -/
def initTools (perms : List Permission) : List String :=
  (if Permission.read ∈ perms then ["read"] else []) ++
  (if Permission.search ∈ perms then ["grep", "glob"] else []) ++
  (if Permission.bash ∈ perms then ["bash"] else []) ++
  (if Permission.write ∈ perms then ["write", "edit"] else [])

/-- The capability `_init_tools` requires for each tool name. -/
def requiredCapability (name : String) : Option Permission :=
  if name = "read" then some .read
  else if name = "grep" ∨ name = "glob" then some .search
  else if name = "bash" then some .bash
  else if name = "write" ∨ name = "edit" then some .write
  else none

/-- `BaseAgent.execute_tool`: the permission gate, then the tool itself
(`runTool` models the registered tool implementations). -/
def executeTool (tools : List String)
    (runTool : String → List (String × String) → ToolResult)
    (toolName : String) (args : List (String × String)) : ToolResult :=
  if toolName ∈ tools then runTool toolName args
  else
    { success := false
      data := none
      error := some ("Tool '" ++ toolName ++ "' not available for this agent") }

def truncateChars (n : Nat) (s : String) : String :=
  String.mk (s.toList.take n)

/-- `str(result.data)` with the 3000-character truncation of
`_execute_tool_call`. -/
def formatToolData (data : Option String) : String :=
  let s := match data with
    | some s => s
    | none => "None"
  if 3000 < s.length then
    truncateChars 3000 s ++ "\n... (truncated, " ++ toString s.length ++ " chars total)"
  else s

/-- `BaseAgent._execute_tool_call`: returns the feedback string and the
name of the tool that actually ran (`none` when the call was rejected
before any tool executed).  Tool-raised exceptions are part of `runTool`'s
`ToolResult` (`success=false`). -/
def executeToolCall (tools : List String)
    (runTool : String → List (String × String) → ToolResult)
    (tc : ToolCall) : String × Option String :=
  if tc.name = "" ∨ tc.name ∉ tools then
    ("Error: Tool '" ++ tc.name ++ "' not available", none)
  else
    let r := executeTool tools runTool tc.name tc.arguments
    (if r.success then formatToolData r.data
     else "Error: " ++ (match r.error with | some e => e | none => "None"),
     some tc.name)

/-- Oracles of one `agentic_loop` run: the streaming chat call per
iteration (`.error` = an exception in the stream), the two fallback
extractors, and the registered tool implementations. -/
structure LoopEnv where
  llm : Nat → Except String (String × List ToolCall)
  parseToolCallsFn : String → List ToolCall
  detectIntentFn : String → String → List ToolCall
  runTool : String → List (String × String) → ToolResult

/-- The three-tier tool-call extraction of `agentic_loop` (structured
calls, else `_parse_tool_calls(response_text)`, else
`_detect_tool_intent(response_text, task)`). -/
def extractToolCalls (env : LoopEnv) (task text : String)
    (structured : List ToolCall) : List ToolCall :=
  if structured ≠ [] then structured
  else
    let parsed := env.parseToolCallsFn text
    if parsed ≠ [] then parsed
    else env.detectIntentFn text task

/-- Loop exit reason. -/
inductive LoopEnd where
  | llmError (msg : String)
  | finalAnswer (text : String)
  | exhausted

/-- Mutable loop state: `iteration`, the tool-call log, the message list,
and the names of tools that actually executed. -/
structure LoopSt where
  iter : Nat
  log : List (ToolCall × String)
  msgs : List (String × String)
  executed : List String

/-- The `while iteration < max_iterations` loop of `agentic_loop`,
structurally recursive on the remaining iterations. -/
def agenticLoopGo (cfg : AgentConfig) (env : LoopEnv) (task : String) :
    Nat → LoopSt → LoopEnd × LoopSt
  | 0, st => (.exhausted, st)
  | remaining + 1, st =>
      match env.llm st.iter with
      | .error msg => (.llmError msg, { st with iter := st.iter + 1 })
      | .ok (text, structured) =>
          let toolCalls := extractToolCalls env task text structured
          if toolCalls = [] then (.finalAnswer text, { st with iter := st.iter + 1 })
          else
            let results := toolCalls.map
              (fun tc => executeToolCall (initTools cfg.permissions) env.runTool tc)
            let entries := (toolCalls.zip results).map
              (fun p => (p.1, truncateChars 500 p.2.1))
            let toolResponse := joinSep "\n\n" ((toolCalls.zip results).map
              (fun p => "[Tool: " ++ p.1.name ++ "]\n" ++ p.2.1))
            agenticLoopGo cfg env task remaining
              { iter := st.iter + 1
                log := st.log ++ entries
                msgs := st.msgs ++
                  [("assistant", if text = "" then "Executing tools..." else text),
                   ("user", "Tool results:\n" ++ toolResponse)]
                executed := st.executed ++ results.filterMap (fun r => r.2) }

/-- The failed result of the `iteration >= max_iterations and not
final_response` branch. -/
def maxIterResult (cfg : AgentConfig) (log : List (ToolCall × String)) :
    AgentResult :=
  { agent_name := cfg.name
    success := false
    output := ""
    error := some ("Agent reached max iterations (" ++
      toString cfg.max_iterations ++ ") without completing")
    toolCallsLog := log }

/-- The shared post-loop check of `agentic_loop`. -/
def agenticLoopPost (cfg : AgentConfig) (text : String) (st : LoopSt) :
    AgentResult :=
  if cfg.max_iterations ≤ st.iter ∧ text = "" then maxIterResult cfg st.log
  else
    { agent_name := cfg.name
      success := true
      output := text
      error := none
      toolCallsLog := st.log }

/-- `BaseAgent.agentic_loop(task)`; second component: the final loop state
(LLM calls made = `iter`, executed tool names, messages). -/
def agenticLoop (cfg : AgentConfig) (env : LoopEnv)
    (sysPrompt workingDir task : String) : AgentResult × LoopSt :=
  let st0 : LoopSt :=
    { iter := 0
      log := []
      msgs := [("system", sysPrompt ++ "\n\nWorking directory: " ++ workingDir),
               ("user", task)]
      executed := [] }
  match agenticLoopGo cfg env task cfg.max_iterations st0 with
  | (.llmError msg, st) =>
      ({ agent_name := cfg.name
         success := false
         output := ""
         error := some ("LLM error: " ++ msg)
         toolCallsLog := st.log }, st)
  | (.finalAnswer text, st) => (agenticLoopPost cfg text st, st)
  | (.exhausted, st) => (agenticLoopPost cfg "" st, st)

/-- Iteration `k` of the loop produces at least one tool call (so the
response is not treated as final). -/
def iterationHasToolCalls (env : LoopEnv) (task : String) (k : Nat) : Prop :=
  match env.llm k with
  | .ok (text, structured) => extractToolCalls env task text structured ≠ []
  | .error _ => False

lemma agenticLoopGo_iter_le (cfg : AgentConfig) (env : LoopEnv)
    (task : String) :
    ∀ remaining st, (agenticLoopGo cfg env task remaining st).2.iter ≤
      st.iter + remaining := by
  intro remaining
  induction remaining with
  | zero => intro st; exact Nat.le_refl _
  | succ remaining ih =>
      intro st
      cases hllm : env.llm st.iter with
      | error msg =>
          simp only [agenticLoopGo, hllm]
          omega
      | ok p =>
          obtain ⟨text, structured⟩ := p
          simp only [agenticLoopGo, hllm]
          by_cases hc : extractToolCalls env task text structured = []
          · rw [if_pos hc]
            show st.iter + 1 ≤ st.iter + (remaining + 1)
            omega
          · rw [if_neg hc]
            refine (ih _).trans ?_
            show st.iter + 1 + remaining ≤ st.iter + (remaining + 1)
            omega

lemma agenticLoopGo_all_calls (cfg : AgentConfig) (env : LoopEnv)
    (task : String) :
    ∀ remaining st,
      (∀ k, st.iter ≤ k → k < st.iter + remaining →
        iterationHasToolCalls env task k) →
      (agenticLoopGo cfg env task remaining st).1 = .exhausted ∧
      (agenticLoopGo cfg env task remaining st).2.iter = st.iter + remaining := by
  intro remaining
  induction remaining with
  | zero => intro st _; exact ⟨rfl, rfl⟩
  | succ remaining ih =>
      intro st hall
      have hk := hall st.iter (Nat.le_refl _) (by omega)
      unfold iterationHasToolCalls at hk
      cases hllm : env.llm st.iter with
      | error msg => rw [hllm] at hk; exact absurd hk (by simp)
      | ok p =>
          obtain ⟨text, structured⟩ := p
          rw [hllm] at hk
          have hc : extractToolCalls env task text structured ≠ [] := hk
          simp only [agenticLoopGo, hllm]
          rw [if_neg hc]
          refine (ih _ ?_).imp id (fun h => ?_)
          · intro k hk1 hk2
            have hk1' : st.iter + 1 ≤ k := hk1
            have hk2' : k < st.iter + 1 + remaining := hk2
            exact hall k (by omega) (by omega)
          · rw [h]
            show st.iter + 1 + remaining = st.iter + (remaining + 1)
            omega

/-- **C6.** `agentic_loop` performs at most `max_iterations` LLM-call
iterations; and when every iteration yields tool calls (so no final,
tool-call-free answer is ever produced within the bound), it returns a
failed `AgentResult`: `success = false`, empty `output`, and an error
stating that max iterations were reached. -/
theorem agenticLoop_max_iterations (cfg : AgentConfig) (env : LoopEnv)
    (sysPrompt workingDir task : String) :
    (agenticLoop cfg env sysPrompt workingDir task).2.iter ≤ cfg.max_iterations ∧
    ((∀ k < cfg.max_iterations, iterationHasToolCalls env task k) →
      ((agenticLoop cfg env sysPrompt workingDir task).1.success = false ∧
       (agenticLoop cfg env sysPrompt workingDir task).1.output = "" ∧
       (agenticLoop cfg env sysPrompt workingDir task).1.error =
         some ("Agent reached max iterations (" ++
           toString cfg.max_iterations ++ ") without completing"))) := by
  constructor
  · simp only [agenticLoop]
    have h := agenticLoopGo_iter_le cfg env task cfg.max_iterations
      { iter := 0
        log := []
        msgs := [("system", sysPrompt ++ "\n\nWorking directory: " ++ workingDir),
                 ("user", task)]
        executed := [] }
    rcases hg : agenticLoopGo cfg env task cfg.max_iterations
      { iter := 0
        log := []
        msgs := [("system", sysPrompt ++ "\n\nWorking directory: " ++ workingDir),
                 ("user", task)]
        executed := [] } with ⟨e, st⟩
    rw [hg] at h
    cases e <;> simpa using h
  · intro hall
    simp only [agenticLoop]
    have h := agenticLoopGo_all_calls cfg env task cfg.max_iterations
      { iter := 0
        log := []
        msgs := [("system", sysPrompt ++ "\n\nWorking directory: " ++ workingDir),
                 ("user", task)]
        executed := [] }
      (fun k h1 h2 => hall k (by simpa using h2))
    rcases hg : agenticLoopGo cfg env task cfg.max_iterations
      { iter := 0
        log := []
        msgs := [("system", sysPrompt ++ "\n\nWorking directory: " ++ workingDir),
                 ("user", task)]
        executed := [] } with ⟨e, st⟩
    rw [hg] at h
    have he : e = .exhausted := h.1
    have hiter : st.iter = 0 + cfg.max_iterations := h.2
    subst he
    show (agenticLoopPost cfg "" st).success = false ∧
      (agenticLoopPost cfg "" st).output = "" ∧
      (agenticLoopPost cfg "" st).error =
        some ("Agent reached max iterations (" ++
          toString cfg.max_iterations ++ ") without completing")
    rw [agenticLoopPost,
      if_pos (⟨by omega, rfl⟩ : cfg.max_iterations ≤ st.iter ∧ "" = "")]
    exact ⟨rfl, rfl, rfl⟩

theorem agenticLoop_max_iterations_witness :
    (∀ k < 3, iterationHasToolCalls
      { llm := fun _ => .ok ("calling a tool", [⟨"read", [("path", "a.txt")]⟩])
        parseToolCallsFn := fun _ => []
        detectIntentFn := fun _ _ => []
        runTool := fun _ _ => ⟨true, some "contents", none⟩ } "read a.txt" k) ∧
    ((agenticLoop ⟨"explorer", [.read, .search], 3⟩
      { llm := fun _ => .ok ("calling a tool", [⟨"read", [("path", "a.txt")]⟩])
        parseToolCallsFn := fun _ => []
        detectIntentFn := fun _ _ => []
        runTool := fun _ _ => ⟨true, some "contents", none⟩ }
      "sys" "/proj" "read a.txt").2.iter ≤ 3 ∧
     ((agenticLoop ⟨"explorer", [.read, .search], 3⟩
      { llm := fun _ => .ok ("calling a tool", [⟨"read", [("path", "a.txt")]⟩])
        parseToolCallsFn := fun _ => []
        detectIntentFn := fun _ _ => []
        runTool := fun _ _ => ⟨true, some "contents", none⟩ }
      "sys" "/proj" "read a.txt").1.success = false ∧
      (agenticLoop ⟨"explorer", [.read, .search], 3⟩
      { llm := fun _ => .ok ("calling a tool", [⟨"read", [("path", "a.txt")]⟩])
        parseToolCallsFn := fun _ => []
        detectIntentFn := fun _ _ => []
        runTool := fun _ _ => ⟨true, some "contents", none⟩ }
      "sys" "/proj" "read a.txt").1.output = "" ∧
      (agenticLoop ⟨"explorer", [.read, .search], 3⟩
      { llm := fun _ => .ok ("calling a tool", [⟨"read", [("path", "a.txt")]⟩])
        parseToolCallsFn := fun _ => []
        detectIntentFn := fun _ _ => []
        runTool := fun _ _ => ⟨true, some "contents", none⟩ }
      "sys" "/proj" "read a.txt").1.error =
        some ("Agent reached max iterations (" ++ toString 3 ++ ") without completing"))) := by
  constructor
  · intro k _
    show extractToolCalls _ _ _ _ ≠ []
    decide
  · exact (agenticLoop_max_iterations _ _ _ _ _).imp id
      (fun h => h (fun k _ => by
        show extractToolCalls _ _ _ _ ≠ []
        decide))

lemma mem_initTools (perms : List Permission) (t : String) :
    t ∈ initTools perms ↔
      (t = "read" ∧ Permission.read ∈ perms) ∨
      ((t = "grep" ∨ t = "glob") ∧ Permission.search ∈ perms) ∨
      (t = "bash" ∧ Permission.bash ∈ perms) ∨
      ((t = "write" ∨ t = "edit") ∧ Permission.write ∈ perms) := by
  unfold initTools
  split_ifs with h1 h2 h3 h4 <;> simp_all <;> tauto

/-- `_execute_tool_call` reports an executed tool only when it is in the
registry. -/
lemma executeToolCall_executed {tools : List String}
    {runTool : String → List (String × String) → ToolResult} {tc : ToolCall}
    {n : String}
    (h : (executeToolCall tools runTool tc).2 = some n) : n ∈ tools := by
  unfold executeToolCall at h
  by_cases hc : tc.name = "" ∨ tc.name ∉ tools
  · rw [if_pos hc] at h
    cases h
  · rw [if_neg hc] at h
    have hn : n = tc.name := by
      have := congrArg id h
      simpa using this.symm
    subst hn
    push_neg at hc
    exact hc.2

/-- Every tool the loop ever executes is in the agent's registry. -/
lemma agenticLoopGo_executed_subset (cfg : AgentConfig) (env : LoopEnv)
    (task : String) :
    ∀ remaining st,
      (∀ t ∈ st.executed, t ∈ initTools cfg.permissions) →
      ∀ t ∈ (agenticLoopGo cfg env task remaining st).2.executed,
        t ∈ initTools cfg.permissions := by
  intro remaining
  induction remaining with
  | zero => intro st hst; exact hst
  | succ remaining ih =>
      intro st hst
      cases hllm : env.llm st.iter with
      | error msg =>
          simp only [agenticLoopGo, hllm]
          exact hst
      | ok p =>
          obtain ⟨text, structured⟩ := p
          simp only [agenticLoopGo, hllm]
          by_cases hc : extractToolCalls env task text structured = []
          · rw [if_pos hc]
            exact hst
          · rw [if_neg hc]
            refine ih _ ?_
            intro t ht
            rcases List.mem_append.1 ht with hold | hnew
            · exact hst t hold
            · obtain ⟨r, hr, hrt⟩ := List.mem_filterMap.1 hnew
              obtain ⟨tc, _htc, rfl⟩ := List.mem_map.1 hr
              exact executeToolCall_executed hrt

/-- **C7.** For every agent and every tool whose required capability is
absent from the agent's permission set: the tool is not in the registry
built by `_init_tools`; `execute_tool` returns the synthetic failure
`{success := false, error := "Tool '…' not available for this agent"}`
without dispatching to any tool; `_execute_tool_call` returns the
`"Error: Tool '…' not available"` feedback string (which the loop appends
to the messages) and executes nothing; consequently, over any whole
`agentic_loop` run of an agent configured without WRITE, neither `write`
nor `edit` is ever in its registry and neither is ever executed. -/
theorem capability_denied (perms : List Permission) (name : String)
    (cap : Permission)
    (runTool : String → List (String × String) → ToolResult)
    (args : List (String × String))
    (hreq : requiredCapability name = some cap) (hcap : cap ∉ perms) :
    name ∉ initTools perms ∧
    executeTool (initTools perms) runTool name args =
      { success := false
        data := none
        error := some ("Tool '" ++ name ++ "' not available for this agent") } ∧
    executeToolCall (initTools perms) runTool ⟨name, args⟩ =
      ("Error: Tool '" ++ name ++ "' not available", none) ∧
    (∀ cfg : AgentConfig, ∀ env sysPrompt workingDir task,
      cfg.permissions = perms →
      name ∉ (agenticLoop cfg env sysPrompt workingDir task).2.executed) ∧
    (Permission.write ∉ perms →
      "write" ∉ initTools perms ∧ "edit" ∉ initTools perms) := by
  have hnot : name ∉ initTools perms := by
    intro hmem
    rw [mem_initTools] at hmem
    unfold requiredCapability at hreq
    rcases hmem with ⟨hn, hp⟩ | ⟨hn, hp⟩ | ⟨hn, hp⟩ | ⟨hn, hp⟩
    · rw [if_pos hn] at hreq
      cases hreq
      exact hcap hp
    · have hn' : ¬ name = "read" := by
        rcases hn with h | h <;> subst h <;> decide
      rw [if_neg hn', if_pos hn] at hreq
      cases hreq
      exact hcap hp
    · have h1 : ¬ name = "read" := by subst hn; decide
      have h2 : ¬ (name = "grep" ∨ name = "glob") := by subst hn; decide
      rw [if_neg h1, if_neg h2, if_pos hn] at hreq
      cases hreq
      exact hcap hp
    · have h1 : ¬ name = "read" := by
        rcases hn with h | h <;> subst h <;> decide
      have h2 : ¬ (name = "grep" ∨ name = "glob") := by
        rcases hn with h | h <;> subst h <;> decide
      have h3 : ¬ name = "bash" := by
        rcases hn with h | h <;> subst h <;> decide
      rw [if_neg h1, if_neg h2, if_neg h3, if_pos hn] at hreq
      cases hreq
      exact hcap hp
  refine ⟨hnot, ?_, ?_, ?_, ?_⟩
  · unfold executeTool
    rw [if_neg hnot]
  · unfold executeToolCall
    rw [if_pos (Or.inr hnot)]
  · intro cfg env sysPrompt workingDir task hperm hmem
    have h := agenticLoopGo_executed_subset cfg env task cfg.max_iterations
      { iter := 0
        log := []
        msgs := [("system", sysPrompt ++ "\n\nWorking directory: " ++ workingDir),
                 ("user", task)]
        executed := [] }
      (by intro t ht; cases ht)
      name
    rw [hperm] at h
    have hloop : (agenticLoop cfg env sysPrompt workingDir task).2 =
        (agenticLoopGo cfg env task cfg.max_iterations
          { iter := 0
            log := []
            msgs := [("system", sysPrompt ++ "\n\nWorking directory: " ++ workingDir),
                     ("user", task)]
            executed := [] }).2 := by
      simp only [agenticLoop]
      rcases agenticLoopGo cfg env task cfg.max_iterations
        { iter := 0
          log := []
          msgs := [("system", sysPrompt ++ "\n\nWorking directory: " ++ workingDir),
                   ("user", task)]
          executed := [] } with ⟨e, st⟩
      cases e <;> rfl
    rw [hloop] at hmem
    exact hnot (h hmem)
  · intro hw
    constructor
    · intro hmem
      rw [mem_initTools] at hmem
      rcases hmem with ⟨hn, _⟩ | ⟨hn, _⟩ | ⟨hn, _⟩ | ⟨_, hp⟩ <;>
        first
          | exact absurd hn (by decide)
          | exact hw hp
    · intro hmem
      rw [mem_initTools] at hmem
      rcases hmem with ⟨hn, _⟩ | ⟨hn, _⟩ | ⟨hn, _⟩ | ⟨_, hp⟩ <;>
        first
          | exact absurd hn (by decide)
          | exact hw hp

theorem capability_denied_witness :
    (requiredCapability "write" = some Permission.write ∧
      Permission.write ∉ [Permission.read, Permission.search, Permission.bash]) ∧
    ("write" ∉ initTools [Permission.read, Permission.search, Permission.bash] ∧
     executeTool (initTools [Permission.read, Permission.search, Permission.bash])
        (fun _ _ => ⟨true, some "ran", none⟩) "write" [("path", "x"), ("content", "y")] =
       { success := false
         data := none
         error := some ("Tool 'write' not available for this agent") } ∧
     executeToolCall (initTools [Permission.read, Permission.search, Permission.bash])
        (fun _ _ => ⟨true, some "ran", none⟩)
        ⟨"write", [("path", "x"), ("content", "y")]⟩ =
       ("Error: Tool 'write' not available", none) ∧
     (∀ cfg : AgentConfig, ∀ env sysPrompt workingDir task,
       cfg.permissions = [Permission.read, Permission.search, Permission.bash] →
       "write" ∉ (agenticLoop cfg env sysPrompt workingDir task).2.executed) ∧
     (Permission.write ∉ [Permission.read, Permission.search, Permission.bash] →
       "write" ∉ initTools [Permission.read, Permission.search, Permission.bash] ∧
       "edit" ∉ initTools [Permission.read, Permission.search, Permission.bash])) :=
  ⟨⟨by decide, by decide⟩,
   capability_denied [Permission.read, Permission.search, Permission.bash]
     "write" Permission.write (fun _ _ => ⟨true, some "ran", none⟩)
     [("path", "x"), ("content", "y")] (by decide) (by decide)⟩

/-! ## Tool-callback correlation
(`src/penguincode_cli/server/services/tools.py`, `ToolCallbackServiceImpl`)

`request_tool_execution` creates a `PendingToolRequest` with a fresh
future, registers it under its request id, and awaits
`asyncio.wait_for(pending.future, timeout_seconds)`:

* a client response is handled by `_process_responses`, which resolves the
  future only when the request is still registered *and* the future is not
  yet done; otherwise the response is logged ("Unexpected tool response")
  and dropped;
* on timeout, `wait_for` cancels the future and the method returns
  `ToolResponse(request_id, success=False,
  error=f"Tool execution timed out after {timeout_seconds}s")`; the
  `finally` removes the registration, so any later response for that id
  finds no pending entry and is dropped.

Per request id this is the state machine below; one event = one atomic
region of the event loop (the check-and-set in `_process_responses` has no
`await` between check and `set_result`). -/

/-- `ToolResponse` (proto message; unset proto string fields are `""`). -/
structure ToolResponse where
  request_id : String
  success : Bool
  data : String
  error : String
deriving Repr, DecidableEq

/-- Lifecycle state of one outstanding request's future/registration. -/
inductive ReqState where
  | waiting
  | resolved (resp : ToolResponse)
  | timedOut
deriving Repr, DecidableEq

/-- An event concerning one request id: a client response with that id
arrives, or the request's `wait_for` timeout fires. -/
inductive ReqEvent where
  | clientResponse (resp : ToolResponse)
  | timeoutFires
deriving Repr, DecidableEq

/-- State transition per event: the first resolving event wins; a response
arriving when the future is already resolved or cancelled, or after the
registration was removed, is dropped (logged), and a timeout cannot fire
twice. -/
def reqStep : ReqState → ReqEvent → ReqState
  | .waiting, .clientResponse r => .resolved r
  | .waiting, .timeoutFires => .timedOut
  | s, _ => s

def runReqEvents (evs : List ReqEvent) : ReqState :=
  evs.foldl reqStep .waiting

/-- The `ToolResponse` that `request_tool_execution` returns once the
request has resolved (`none` while still waiting). -/
def requestOutcome (requestId : String) (timeoutSeconds : Nat) :
    ReqState → Option ToolResponse
  | .waiting => none
  | .resolved r => some r
  | .timedOut => some
      { request_id := requestId
        success := false
        data := ""
        error := "Tool execution timed out after " ++ toString timeoutSeconds ++ "s" }

lemma reqStep_stay {s : ReqState} (h : s ≠ .waiting) (e : ReqEvent) :
    reqStep s e = s := by
  cases s with
  | waiting => exact absurd rfl h
  | resolved r => cases e <;> rfl
  | timedOut => cases e <;> rfl

lemma foldl_reqStep_stay {s : ReqState} (h : s ≠ .waiting) :
    ∀ evs : List ReqEvent, evs.foldl reqStep s = s := by
  intro evs
  induction evs with
  | nil => rfl
  | cons e evs ih => rw [List.foldl_cons, reqStep_stay h e]; exact ih

lemma reqStep_waiting_ne (e : ReqEvent) : reqStep .waiting e ≠ .waiting := by
  cases e <;> simp [reqStep]

/-- **C8.** Each outstanding tool-callback request resolves with exactly
one outcome: the first event for its id decides the result —
if the timeout fires first, `request_tool_execution` returns a
`ToolResponse` with `success = false` and the timed-out error for that
request id, and every response arriving later is dropped without changing
the result; if a client response arrives first, it becomes the result and
every duplicate or later event is dropped; in general, once the state has
left `waiting` no further event changes it. -/
theorem tool_callback_exactly_once (requestId : String)
    (timeoutSeconds : Nat) (r : ToolResponse) (evs : List ReqEvent)
    (e : ReqEvent) :
    (∀ s : ReqState, s ≠ .waiting → evs.foldl reqStep s = s) ∧
    runReqEvents (e :: evs) = reqStep .waiting e ∧
    requestOutcome requestId timeoutSeconds
      (runReqEvents (.timeoutFires :: evs)) =
      some { request_id := requestId
             success := false
             data := ""
             error := "Tool execution timed out after " ++
               toString timeoutSeconds ++ "s" } ∧
    requestOutcome requestId timeoutSeconds
      (runReqEvents (.clientResponse r :: evs)) = some r := by
  refine ⟨fun s h => foldl_reqStep_stay h evs, ?_, ?_, ?_⟩
  · show (e :: evs).foldl reqStep .waiting = reqStep .waiting e
    rw [List.foldl_cons]
    exact foldl_reqStep_stay (reqStep_waiting_ne e) evs
  · show requestOutcome _ _ ((.timeoutFires :: evs).foldl reqStep .waiting) = _
    rw [List.foldl_cons]
    rw [foldl_reqStep_stay (reqStep_waiting_ne _) evs]
    rfl
  · show requestOutcome _ _ ((.clientResponse r :: evs).foldl reqStep .waiting) = _
    rw [List.foldl_cons]
    rw [foldl_reqStep_stay (reqStep_waiting_ne _) evs]
    rfl

theorem tool_callback_exactly_once_witness :
    ((∀ s : ReqState, s ≠ .waiting →
        [ReqEvent.clientResponse ⟨"id-1", true, "late", ""⟩].foldl reqStep s = s) ∧
     runReqEvents (ReqEvent.timeoutFires ::
        [ReqEvent.clientResponse ⟨"id-1", true, "late", ""⟩]) =
       reqStep .waiting ReqEvent.timeoutFires ∧
     requestOutcome "id-1" 30
       (runReqEvents (ReqEvent.timeoutFires ::
          [ReqEvent.clientResponse ⟨"id-1", true, "late", ""⟩])) =
       some { request_id := "id-1"
              success := false
              data := ""
              error := "Tool execution timed out after " ++ toString 30 ++ "s" } ∧
     requestOutcome "id-1" 30
       (runReqEvents (ReqEvent.clientResponse ⟨"id-1", true, "ok", ""⟩ ::
          [ReqEvent.clientResponse ⟨"id-1", true, "late", ""⟩])) =
       some ⟨"id-1", true, "ok", ""⟩) :=
  tool_callback_exactly_once "id-1" 30 ⟨"id-1", true, "ok", ""⟩
    [ReqEvent.clientResponse ⟨"id-1", true, "late", ""⟩] ReqEvent.timeoutFires

/-! ## Context compaction
(`ChatAgent._needs_compaction` / `_compact_history`,
`src/penguincode_cli/agents/chat.py`)

Constants: `CONTEXT_THRESHOLD_PERCENT = 70`, `CHARS_PER_TOKEN = 4`.
`_estimate_tokens(text) = len(text) // 4`; `_get_history_tokens` adds the
summary estimate (when non-empty) and every message's content estimate;
`_needs_compaction` compares against
`int(context_window * 70 / 100)`.

`_compact_history`: if fewer than 4 messages, return; otherwise
`keep_count = min(4, len(history) // 2)`, summarize `history[:-keep_count]`
(each message rendered as `f"{role}: {content[:500]}..."` when longer than
500 chars) through a dedicated no-tools LLM call; a non-empty response
extends the summary (`"{old}\n\nMore recently: {new}"`) and the history
becomes `history[-keep_count:]`; an empty response changes nothing; an
exception truncates the history to its last 6 messages. -/

structure Msg where
  role : String
  content : String
deriving Repr, DecidableEq

def CHARS_PER_TOKEN : Nat := 4

def CONTEXT_THRESHOLD_PERCENT : Nat := 70

/-- `ChatAgent._estimate_tokens`. -/
def estimateTokens (s : String) : Nat := s.length / CHARS_PER_TOKEN

/-- `ChatAgent._get_history_tokens`. -/
def historyTokens (summary : String) (hist : List Msg) : Nat :=
  (if summary ≠ "" then estimateTokens summary else 0) +
  (hist.map (fun m => estimateTokens m.content)).sum

/-- `int(context_window * CONTEXT_THRESHOLD_PERCENT / 100)` (exact for the
magnitudes involved; Python truncates the float toward zero). -/
def compactionThreshold (contextWindow : Nat) : Nat :=
  contextWindow * CONTEXT_THRESHOLD_PERCENT / 100

/-- `ChatAgent._needs_compaction`. -/
def needsCompaction (contextWindow : Nat) (summary : String)
    (hist : List Msg) : Bool :=
  compactionThreshold contextWindow < historyTokens summary hist

/-- The summarization prompt of `_compact_history`. -/
def summaryPrompt (historyText : String) : String :=
  "Summarize this conversation history concisely, preserving key facts, decisions, and context:\n\n"
  ++ historyText ++
  "\n\nProvide a brief summary (2-4 sentences) of what was discussed and any important outcomes."

/-- `ChatAgent._compact_history`, with the summarizer LLM call as an
oracle: `none` models an exception reaching the `except` branch, `some ""`
an empty `_call_llm` result (which includes LLM errors, caught inside
`_call_llm`), `some t` a produced summary.  Returns the new
`(conversation_summary, conversation_history)`. -/
def compactHistory (summarize : String → Option String)
    (summary : String) (hist : List Msg) : String × List Msg :=
  if hist.length < 4 then (summary, hist)
  else
    let keepCount := min 4 (hist.length / 2)
    let toSummarize := hist.take (hist.length - keepCount)
    let toKeep := hist.drop (hist.length - keepCount)
    let historyText := joinSep "\n" (toSummarize.map (fun m =>
      if 500 < m.content.length then
        m.role ++ ": " ++ truncateChars 500 m.content ++ "..."
      else m.role ++ ": " ++ m.content))
    match summarize (summaryPrompt historyText) with
    | none => (summary, hist.drop (hist.length - 6))
    | some t =>
        if t ≠ "" then
          (if summary ≠ "" then summary ++ "\n\nMore recently: " ++ t else t,
           toKeep)
        else (summary, hist)

def demoMsg : Msg := { role := "user", content := "aaaaaaaa" }

def demoHist : List Msg := List.replicate 8 demoMsg

def demoSummarizer : String → Option String := fun _ => some "S"

/-- **C9, counterexample.** Context window 4 (threshold 2 tokens), eight
8-character messages (16 tokens): compaction triggers and keeps the last
`min(4, 8//2) = 4` messages with summary `"S"`, but the estimate of
summary + kept messages is 8 tokens, still above the threshold (so the
compaction is not threshold-restoring); and running `_compact_history`
again without new turns re-compacts (keeping `min(4, 4//2) = 2` messages
and extending the summary), so it is not idempotent either. -/
theorem compaction_counterexample :
    needsCompaction 4 "" demoHist = true ∧
    compactHistory demoSummarizer "" demoHist = ("S", List.replicate 4 demoMsg) ∧
    compactionThreshold 4 <
      historyTokens "S" (List.replicate 4 demoMsg) ∧
    compactHistory demoSummarizer "S" (List.replicate 4 demoMsg) =
      ("S\n\nMore recently: S", List.replicate 2 demoMsg) ∧
    ("S\n\nMore recently: S", List.replicate 2 demoMsg) ≠
      (("S" : String), List.replicate 4 demoMsg) := by
  refine ⟨by decide, by decide, by decide, by decide, by decide⟩

/-- **C9 (amended).** For a history of `n ≥ 4` messages and a summarizer
returning a non-empty text `t`: `_compact_history` keeps exactly the most
recent `min(4, n // 2)` messages (messages, not turns — fewer than the
claimed 4 when `n < 8`), extends the summary with `t`, and guarantees no
bound on the resulting token estimate; with fewer than 4 messages it is a
no-op, and hence a second call is a no-op precisely when fewer than 4
messages were kept (`n ≤ 7`). -/
theorem compactHistory_spec (t : String) (ht : t ≠ "") (summary : String)
    (hist : List Msg) (hlen : 4 ≤ hist.length) :
    compactHistory (fun _ => some t) summary hist =
      ((if summary ≠ "" then summary ++ "\n\nMore recently: " ++ t else t),
        hist.drop (hist.length - min 4 (hist.length / 2))) ∧
    (hist.drop (hist.length - min 4 (hist.length / 2))).length =
      min 4 (hist.length / 2) ∧
    (∀ hist2 : List Msg, hist2.length < 4 → ∀ s2,
      compactHistory (fun _ => some t) s2 hist2 = (s2, hist2)) ∧
    (hist.length ≤ 7 →
      compactHistory (fun _ => some t)
        (if summary ≠ "" then summary ++ "\n\nMore recently: " ++ t else t)
        (hist.drop (hist.length - min 4 (hist.length / 2))) =
      ((if summary ≠ "" then summary ++ "\n\nMore recently: " ++ t else t),
        hist.drop (hist.length - min 4 (hist.length / 2)))) := by
  have hkeep : min 4 (hist.length / 2) ≤ hist.length :=
    le_trans (min_le_right _ _) (Nat.div_le_self _ _)
  have hdroplen : (hist.drop (hist.length - min 4 (hist.length / 2))).length =
      min 4 (hist.length / 2) := by
    rw [List.length_drop]
    omega
  have hsmall : ∀ hist2 : List Msg, hist2.length < 4 → ∀ s2,
      compactHistory (fun _ => some t) s2 hist2 = (s2, hist2) := by
    intro hist2 h2 s2
    unfold compactHistory
    rw [if_pos h2]
  refine ⟨?_, hdroplen, hsmall, ?_⟩
  · unfold compactHistory
    rw [if_neg (by omega)]
    simp only [ht, if_pos]
    rw [if_pos ht]
  · intro h7
    refine hsmall _ ?_ _
    rw [hdroplen]
    omega

theorem compactHistory_spec_witness :
    (("S" : String) ≠ "" ∧ 4 ≤ demoHist.length) ∧
    (compactHistory (fun _ => some "S") "" demoHist =
      ((if ("" : String) ≠ "" then "" ++ "\n\nMore recently: " ++ "S" else "S"),
        demoHist.drop (demoHist.length - min 4 (demoHist.length / 2))) ∧
     (demoHist.drop (demoHist.length - min 4 (demoHist.length / 2))).length =
       min 4 (demoHist.length / 2) ∧
     (∀ hist2 : List Msg, hist2.length < 4 → ∀ s2,
       compactHistory (fun _ => some "S") s2 hist2 = (s2, hist2)) ∧
     (demoHist.length ≤ 7 →
       compactHistory (fun _ => some "S")
         (if ("" : String) ≠ "" then "" ++ "\n\nMore recently: " ++ "S" else "S")
         (demoHist.drop (demoHist.length - min 4 (demoHist.length / 2))) =
       ((if ("" : String) ≠ "" then "" ++ "\n\nMore recently: " ++ "S" else "S"),
         demoHist.drop (demoHist.length - min 4 (demoHist.length / 2))))) :=
  ⟨⟨by decide, by decide⟩,
   compactHistory_spec "S" (by decide) "" demoHist (by decide)⟩

end PenguinCode
